import Mathlib

/-
  Verification of the advanced-vector repository (src/advanced-vector/vector.h).

  Shallow embedding:
  - RawMemory<T> is modelled by a base address (Option Nat, none = nullptr)
    together with a capacity.
  - Vector<T> is modelled at slot level: the storage is a List (Option α)
    whose length is the capacity; a slot holds some x when a T object with
    value x is alive in it, and none when the slot is uninitialized raw
    memory.  size_ is a separate field.
  - Moves of element values are modelled as copies (value semantics); a
    moved-from C++ object still holds some value, and every claim below is
    stated about values actually read, never about moved-from residue.
  - Element constructors or assignments that may throw are modelled with
    Except Unit where a claim needs them (Emplace growth, claim C3).
-/

namespace AdvVec

/-- Model of RawMemory<T>: buffer_ is the base address (none = nullptr),
capacity_ the number of slots (vector.h lines 11-92). -/
structure RawMemory where
  buffer : Option Nat
  capacity : Nat
deriving DecidableEq, Repr

/-- RawMemory::Swap (vector.h lines 62-65): std::swap of buffer_ and
capacity_ between two distinct objects, returned as the pair
(new lhs, new rhs). -/
def RawMemory.SwapMem (a b : RawMemory) : RawMemory × RawMemory :=
  (⟨b.buffer, b.capacity⟩, ⟨a.buffer, a.capacity⟩)

/-- RawMemory::operator=(RawMemory&&) (vector.h lines 31-36):
if (this != &rhs) this->Swap(rhs).  The isSelf flag models whether the
two references alias the same object; for distinct objects it is false.
Returns (new lhs, new rhs). -/
def RawMemory.moveAssign (lhs rhs : RawMemory) (isSelf : Bool) :
    RawMemory × RawMemory :=
  if isSelf then (lhs, rhs) else RawMemory.SwapMem lhs rhs

/-- RawMemory's move constructor (vector.h lines 24-29): the new object
takes buffer_ and capacity_, the source is zeroed.  Returns
(constructed, new source). -/
def RawMemory.moveConstruct (rhs : RawMemory) : RawMemory × RawMemory :=
  (⟨rhs.buffer, rhs.capacity⟩, ⟨none, 0⟩)

/-- Slot read: contents of slot i of a storage list (none when i is out of
range, matching "uninitialized"). -/
def slotAt (l : List (Option α)) (i : Nat) : Option α :=
  (l[i]?).getD none

/-- Write a run of slot contents starting at slot s, one slot each,
modelling std::uninitialized_copy_n / std::copy / std::move into
consecutive destination slots whose source values are given as a list. -/
def writeSlots : List (Option α) → Nat → List (Option α) → List (Option α)
  | l, _, [] => l
  | l, s, x :: xs => writeSlots (l.set s x) (s + 1) xs

/-- Read the slot contents of the range [s, s+n) of a storage list,
modelling a source iterator range of length n starting at offset s. -/
def readRange (l : List (Option α)) (s n : Nat) : List (Option α) :=
  (l.drop s).take n

/-- std::destroy_n(base + s, n): slots [s, s+n) become uninitialized. -/
def destroyN (l : List (Option α)) (s n : Nat) : List (Option α) :=
  writeSlots l s (List.replicate n none)

/-- Model of Vector<T> (vector.h lines 94-318): data_ as a slot list of
length Capacity(), plus size_. -/
structure Vec (α : Type) where
  slots : List (Option α)
  size : Nat
deriving DecidableEq, Repr

/-- Vector::Capacity() = data_.Capacity() (vector.h lines 290-292). -/
def Vec.Capacity (v : Vec α) : Nat := v.slots.length

/-- Contents of storage slot i of the vector. -/
def Vec.slot (v : Vec α) (i : Nat) : Option α := slotAt v.slots i

/-- The container invariant of the spec: size_ ≤ capacity and exactly the
first size_ slots hold live elements. -/
def Vec.wf (v : Vec α) : Prop :=
  v.size ≤ v.slots.length ∧
  ∀ i < v.slots.length, ((v.slot i).isSome ↔ i < v.size)

instance (v : Vec α) : Decidable v.wf := by
  unfold Vec.wf Vec.slot slotAt
  infer_instance

/-- Vector::Reserve (vector.h lines 177-185): no-op when new_capacity ≤
Capacity(); otherwise allocate new storage, relocate the first size_
elements (CopyOrMoveInNewData, modelled as value copies), destroy the old
elements and swap storages. -/
def Vec.Reserve (v : Vec α) (newCapacity : Nat) : Vec α :=
  if newCapacity ≤ v.Capacity then v
  else
    ⟨writeSlots (List.replicate newCapacity none) 0 (readRange v.slots 0 v.size),
     v.size⟩

/-- Vector::Resize (vector.h lines 187-198).  z models the
value-initialized element written by std::uninitialized_value_construct_n. -/
def Vec.Resize (v : Vec α) (newSize : Nat) (z : α) : Vec α :=
  if newSize = v.size then v
  else if newSize < v.size then
    ⟨destroyN v.slots newSize (v.size - newSize), newSize⟩
  else
    let r := v.Reserve newSize
    ⟨writeSlots r.slots v.size (List.replicate (newSize - v.size) (some z)),
     newSize⟩

/-- Vector::PopBack (vector.h lines 213-219): if size_ == 0 return;
--size_; destroy_at(data_ + size_). -/
def Vec.PopBack (v : Vec α) : Vec α :=
  if v.size = 0 then v
  else ⟨writeSlots v.slots (v.size - 1) [none], v.size - 1⟩

/-- Vector::Emplace (vector.h lines 239-275) with the element value x the
constructor T(std::forward<Types>(values)...) produces; every branch of the
C++ code runs that constructor before mutating storage, so x is fixed at
entry.  Position p is the offset cpos - cbegin().  Returns the new vector
and the offset of the returned iterator.

Growth branch (size_ == Capacity()): new storage of capacity 1 (size 0) or
2*Capacity(); construct x at offset before = p; relocate old [0,p) to new
[0,p) and old [p,size) to new [p+1,size+1); destroy old elements; swap.

No-growth, p == size: construct at end.

No-growth, p < size: T tmp(args...) (that is x); placement-move *(end()-1)
into slot size; std::move_backward(pos, end()-1, end()) shifts [p, size-1)
into [p+1, size); *pos = std::move(tmp). -/
def Vec.EmplaceVal (v : Vec α) (p : Nat) (x : α) : Vec α × Nat :=
  if v.size = v.Capacity then
    if v.size = 0 then
      (⟨writeSlots (List.replicate 1 none) 0 [some x], 1⟩, 0)
    else
      let newCap := 2 * v.Capacity
      let nd1 := writeSlots (List.replicate newCap none) p [some x]
      let nd2 := writeSlots nd1 0 (readRange v.slots 0 p)
      let nd3 := writeSlots nd2 (p + 1) (readRange v.slots p (v.size - p))
      (⟨nd3, v.size + 1⟩, p)
  else
    if p = v.size then
      (⟨writeSlots v.slots p [some x], v.size + 1⟩, p)
    else
      let s1 := writeSlots v.slots v.size [v.slot (v.size - 1)]
      let s2 := writeSlots s1 (p + 1) (readRange v.slots p (v.size - 1 - p))
      let s3 := writeSlots s2 p [some x]
      (⟨s3, v.size + 1⟩, p)

/-- An Emplace/Insert argument: either a plain value, or a reference to
the vector's own element i (aliasing case, e.g. Insert(pos, s[i])). -/
inductive Arg (α : Type) where
  | val : α → Arg α
  | ref : Nat → Arg α
deriving DecidableEq, Repr

/-- The value T(std::forward<Types>(values)...) reads from the arguments
at the moment the C++ code runs that constructor.  In every branch of
Emplace this happens before any storage mutation, so a reference argument
still sees the original element. -/
def Vec.argValue [Inhabited α] (v : Vec α) : Arg α → α
  | .val x => x
  | .ref i => (v.slot i).getD default

/-- Whether a reference argument denotes a live element. -/
def Arg.ok (a : Arg α) (v : Vec α) : Bool :=
  match a with
  | .val _ => true
  | .ref i => decide (i < v.size)

/-- Vector::Emplace with an argument that may alias the vector's own
storage: the element value is constructed from the arguments first (in the
no-growth shifting branch this is the temporary T tmp(...), vector.h line
269), then the storage is mutated. -/
def Vec.Emplace [Inhabited α] (v : Vec α) (p : Nat) (a : Arg α) : Vec α × Nat :=
  Vec.EmplaceVal v p (v.argValue a)

/-- Vector::PushBack / EmplaceBack (vector.h lines 200-211):
Emplace(end(), value). -/
def Vec.PushBack (v : Vec α) (x : α) : Vec α :=
  (Vec.EmplaceVal v v.size x).1

/-- Vector::Erase (vector.h lines 277-283): std::move(pos+1, end(), pos)
shifts [p+1, size) down to [p, size-1) (a forward copy whose destination
precedes its source, so each slot is read before it is overwritten and the
values written are the original ones); then PopBack().  Returns the new
vector and the offset of the returned iterator. -/
def Vec.Erase (v : Vec α) (p : Nat) : Vec α × Nat :=
  let s1 := writeSlots v.slots p (readRange v.slots (p + 1) (v.size - (p + 1)))
  (Vec.PopBack ⟨s1, v.size⟩, p)

/-- Vector::CopyWithOldCopacity (vector.h lines 135-142), verbatim:
copy_size = min(rhs.Size(), Size()); if rhs.Size() < Size() destroy
[rhs.Size(), Size()); else uninitialized_copy_n(rhs.data_ + Size(),
rhs.Size() - size_, data_.GetAddress()) - note the destination is the
BASE of the buffer, not data_ + Size(); then std::copy of the first
copy_size elements of rhs onto the base; size_ = rhs.Size(). -/
def Vec.CopyWithOldCopacity (d s : Vec α) : Vec α :=
  let copySize := if s.size < d.size then s.size else d.size
  let s1 :=
    if s.size < d.size then destroyN d.slots s.size (d.size - s.size)
    else writeSlots d.slots 0 (readRange s.slots d.size (s.size - d.size))
  let s2 := writeSlots s1 0 (readRange s.slots 0 copySize)
  ⟨s2, s.size⟩

/-- Vector::operator=(const Vector&) (vector.h lines 144-154) for distinct
objects: copy-and-swap when rhs.Size() > Capacity(), otherwise
CopyWithOldCopacity.  The copy constructor (lines 131-133) allocates
other.size_ slots and copy-constructs the elements in order. -/
def Vec.copyAssign (d s : Vec α) : Vec α :=
  if s.size > d.Capacity then
    ⟨writeSlots (List.replicate s.size none) 0 (readRange s.slots 0 s.size),
     s.size⟩
  else Vec.CopyWithOldCopacity d s

/-- Vector::operator=(Vector&&) (vector.h lines 161-167) on a heap of
vector objects addressed by Nat: if (this != &rhs) { data_.Swap(rhs.data_);
std::swap(size_, rhs.size_); } - a full state exchange between the two
objects, and a no-op when dst and src are the same object. -/
def vectorMoveAssign (mem : Nat → Vec α) (dst src : Nat) : Nat → Vec α :=
  if dst = src then mem
  else fun i => if i = dst then mem src else if i = src then mem dst else mem i

/-- One copy-construction of a slot's contents by a fallible element copy
constructor (Except.error () = the constructor threw).  Under the wf
invariant relocation only ever reads initialized slots; an uninitialized
slot is carried through unchanged. -/
def copySlot (copyFn : α → Except Unit α) : Option α → Except Unit (Option α)
  | none => Except.ok none
  | some x => (copyFn x).map some

/-- std::uninitialized_copy_n over a range of slots with a fallible copy
constructor.  On error the already-constructed copies have been destroyed
by uninitialized_copy_n itself (C++ standard guarantee), so an error
leaves no net constructions. -/
def relocateE (copyFn : α → Except Unit α) :
    List (Option α) → Except Unit (List (Option α))
  | [] => Except.ok []
  | o :: os => do
    let y ← copySlot copyFn o
    let ys ← relocateE copyFn os
    pure (y :: ys)

/-- Outcome of Emplace in the growth case with fallible element
constructors: whether the exception propagated, the vector's state, the
returned iterator offset, the number of element objects constructed in the
abandoned new region and never destroyed (must be 0), and whether the new
raw allocation was released. -/
structure EmplaceGrowOutcome (α : Type) where
  threw : Bool
  vec : Vec α
  ret : Option Nat
  leaked : Nat
  regionReleased : Bool
deriving Repr

/-- Vector::Emplace, growth branch (vector.h lines 243-261), with a
fallible copy constructor copyFn for relocation and a fallible constructor
mk for the new element.  Follows the C++ control flow statement by
statement:
- RawMemory<T> new_data(size_ == 0 ? 1 : 2*Capacity()): if any later step
  throws, stack unwinding runs new_data's destructor, releasing the region.
- size_ == 0: construct the new element at the base; on throw nothing was
  constructed.
- otherwise construct the new element at offset before = p; then
  CopyData(begin(), before, new base, ...) - its catch destroys the new
  element plus (from - begin()) = 0 already-relocated elements; then
  CopyData(pos, after, new_pos + 1, ...) - its catch destroys the new
  element plus (from - begin()) = p already-relocated elements.  The
  leaked field is computed as constructed-but-not-destroyed in the
  abandoned region (partial constructions inside uninitialized_copy_n are
  destroyed by it, see relocateE). -/
def Vec.EmplaceGrow (copyFn : α → Except Unit α) (mk : Except Unit α)
    (v : Vec α) (p : Nat) : EmplaceGrowOutcome α :=
  if v.size = 0 then
    match mk with
    | .error _ => ⟨true, v, none, 0, true⟩
    | .ok x =>
      ⟨false, ⟨writeSlots (List.replicate 1 none) 0 [some x], 1⟩, some 0, 0, true⟩
  else
    let newCap := 2 * v.Capacity
    match mk with
    | .error _ => ⟨true, v, none, 0 - 0, true⟩
    | .ok x =>
      match relocateE copyFn (readRange v.slots 0 p) with
      | .error _ => ⟨true, v, none, 1 - (1 + 0), true⟩
      | .ok rel1 =>
        match relocateE copyFn (readRange v.slots p (v.size - p)) with
        | .error _ => ⟨true, v, none, (1 + p) - (1 + p), true⟩
        | .ok rel2 =>
          let nd1 := writeSlots (List.replicate newCap none) p [some x]
          let nd2 := writeSlots nd1 0 rel1
          let nd3 := writeSlots nd2 (p + 1) rel2
          ⟨false, ⟨nd3, v.size + 1⟩, some p, 0, true⟩

/-- The debug assertion of Emplace (vector.h line 241),
assert(cpos >= cbegin() || cpos <= cend()), on addresses: b is the begin
address, s the size (so b + s is the end address), q the argument. -/
def emplaceAssertCond (b s q : Nat) : Bool :=
  decide (b ≤ q) || decide (q ≤ b + s)

/-- The debug assertion of Erase (vector.h line 278),
assert(cpos >= cbegin() || cpos < cend()), on addresses. -/
def eraseAssertCond (b s q : Nat) : Bool :=
  decide (b ≤ q) || decide (q < b + s)

/-- n repetitions of PushBack 0 starting from the default-constructed
(empty) vector. -/
def iteratedPush : Nat → Vec Nat
  | 0 => ⟨[], 0⟩
  | n + 1 => (iteratedPush n).PushBack 0

/-! ### Helper lemmas about the storage primitives -/

theorem length_writeSlots (xs l : List (Option α)) (s : Nat) :
    (writeSlots l s xs).length = l.length := by
  induction xs generalizing l s with
  | nil => rfl
  | cons x xs ih => simp [writeSlots, ih]

theorem slotAt_set_ne (l : List (Option α)) (i j : Nat) (x : Option α)
    (h : i ≠ j) : slotAt (l.set i x) j = slotAt l j := by
  simp [slotAt, List.getElem?_set_ne h]

theorem slotAt_set_self (l : List (Option α)) (i : Nat) (x : Option α)
    (h : i < l.length) : slotAt (l.set i x) i = x := by
  simp [slotAt, List.getElem?_set_self h]

theorem slotAt_writeSlots_lt (xs l : List (Option α)) (s i : Nat)
    (h : i < s) : slotAt (writeSlots l s xs) i = slotAt l i := by
  induction xs generalizing l s with
  | nil => rfl
  | cons x xs ih =>
    simp only [writeSlots]
    rw [ih _ _ (by omega)]
    exact slotAt_set_ne l _ _ x (by omega)

theorem slotAt_writeSlots_ge (xs l : List (Option α)) (s i : Nat)
    (h : s + xs.length ≤ i) : slotAt (writeSlots l s xs) i = slotAt l i := by
  induction xs generalizing l s with
  | nil => rfl
  | cons x xs ih =>
    simp only [writeSlots]
    simp only [List.length_cons] at h
    rw [ih _ _ (by omega)]
    exact slotAt_set_ne l _ _ x (by omega)

theorem slotAt_writeSlots_mid (xs l : List (Option α)) (s i : Nat)
    (h1 : s ≤ i) (h2 : i < s + xs.length) (h3 : s + xs.length ≤ l.length) :
    slotAt (writeSlots l s xs) i = xs.getD (i - s) none := by
  induction xs generalizing l s with
  | nil => simp at h2; omega
  | cons x xs ih =>
    simp only [writeSlots]
    simp only [List.length_cons] at h2 h3
    rcases Nat.eq_or_lt_of_le h1 with he | hlt
    · subst he
      have hs : slotAt (l.set s x) s = x := slotAt_set_self l s x (by omega)
      rw [slotAt_writeSlots_lt xs _ _ _ (by omega), hs]
      simp
    · rw [ih _ _ (by omega) (by omega) (by simp; omega)]
      have hd : i - s = (i - (s + 1)) + 1 := by omega
      rw [hd]
      rfl

theorem length_readRange (l : List (Option α)) (s n : Nat)
    (h : s + n ≤ l.length) : (readRange l s n).length = n := by
  simp only [readRange, List.length_take, List.length_drop]
  omega

theorem getD_readRange (l : List (Option α)) (s n j : Nat) (hj : j < n)
    (_h : s + n ≤ l.length) : (readRange l s n).getD j none = slotAt l (s + j) := by
  simp only [readRange, slotAt, List.getD_eq_getElem?_getD,
    List.getElem?_take_of_lt hj, List.getElem?_drop]

/-! ### Characterization of the Vector operations -/

theorem Capacity_Reserve (v : Vec α) (n : Nat) :
    (v.Reserve n).Capacity = max v.Capacity n := by
  unfold Vec.Reserve
  split_ifs with h
  · exact (Nat.max_eq_left h).symm
  · simp only [Vec.Capacity] at h ⊢
    simp only [length_writeSlots, List.length_replicate]
    omega

theorem EmplaceVal_ret (v : Vec α) (p : Nat) (x : α) (hp : p ≤ v.size) :
    (v.EmplaceVal p x).2 = p := by
  unfold Vec.EmplaceVal
  split_ifs with hg h0 hps
  all_goals simp
  all_goals omega

theorem EmplaceVal_size (v : Vec α) (p : Nat) (x : α) :
    (v.EmplaceVal p x).1.size = v.size + 1 := by
  unfold Vec.EmplaceVal
  split_ifs with hg h0 hps
  all_goals simp
  all_goals omega

theorem EmplaceVal_slot (v : Vec α) (p : Nat) (x : α)
    (hlen : v.size ≤ v.slots.length) (hp : p ≤ v.size)
    (i : Nat) (hi : i ≤ v.size) :
    (v.EmplaceVal p x).1.slot i =
      if i < p then v.slot i else if i = p then some x else v.slot (i - 1) := by
  have hcap : Vec.Capacity v = v.slots.length := rfl
  by_cases hg : v.size = v.Capacity
  · by_cases h0 : v.size = 0
    · have hp0 : p = 0 := by omega
      have hi0 : i = 0 := by omega
      subst hp0; subst hi0
      simp only [Vec.EmplaceVal, if_pos hg, if_pos h0, Vec.slot, writeSlots]
      have hs : slotAt ((List.replicate 1 (none : Option α)).set 0 (some x)) 0
          = some x := slotAt_set_self _ 0 _ (by simp)
      rw [hs]
      simp
    · simp only [Vec.EmplaceVal, if_pos hg, if_neg h0, Vec.slot]
      have hone : ([some x] : List (Option α)).length = 1 := rfl
      have hrep : (List.replicate (2 * v.Capacity) (none : Option α)).length
          = 2 * v.Capacity := List.length_replicate _ _
      have hr1 : (readRange v.slots 0 p).length = p :=
        length_readRange _ _ _ (by omega)
      have hr2 : (readRange v.slots p (v.size - p)).length = v.size - p :=
        length_readRange _ _ _ (by omega)
      have hnd1 : (writeSlots (List.replicate (2 * v.Capacity) none) p
          [some x]).length = 2 * v.Capacity := by
        rw [length_writeSlots, List.length_replicate]
      have hnd2 : (writeSlots (writeSlots (List.replicate (2 * v.Capacity) none)
          p [some x]) 0 (readRange v.slots 0 p)).length = 2 * v.Capacity := by
        rw [length_writeSlots, hnd1]
      rcases Nat.lt_trichotomy i p with hlt | heq | hgt
      · rw [slotAt_writeSlots_lt _ _ _ _ (by omega),
          slotAt_writeSlots_mid _ _ _ _ (by omega) (by omega) (by omega),
          getD_readRange _ _ _ _ (by omega) (by omega), if_pos hlt]
        have he : 0 + (i - 0) = i := by omega
        rw [he]
      · subst heq
        rw [slotAt_writeSlots_lt _ _ _ _ (by omega),
          slotAt_writeSlots_ge _ _ _ _ (by omega),
          slotAt_writeSlots_mid _ _ _ _ (by omega) (by omega) (by omega)]
        simp
      · rw [slotAt_writeSlots_mid _ _ _ _ (by omega) (by omega) (by omega),
          getD_readRange _ _ _ _ (by omega) (by omega),
          if_neg (by omega), if_neg (by omega)]
        have he : p + (i - (p + 1)) = i - 1 := by omega
        rw [he]
  · have hslen : v.size < v.slots.length := by omega
    by_cases hps : p = v.size
    · simp only [Vec.EmplaceVal, if_neg hg, if_pos hps, Vec.slot, writeSlots]
      rcases Nat.lt_trichotomy i p with hlt | heq | hgt
      · rw [slotAt_set_ne _ p i _ (by omega), if_pos hlt]
      · subst heq
        rw [slotAt_set_self _ i _ (by omega), if_neg (by omega), if_pos rfl]
      · omega
    · have hplt : p < v.size := by omega
      simp only [Vec.EmplaceVal, if_neg hg, if_neg hps, Vec.slot, writeSlots]
      have hrr : (readRange v.slots p (v.size - 1 - p)).length
          = v.size - 1 - p := length_readRange _ _ _ (by omega)
      have hs1 : (v.slots.set v.size (slotAt v.slots (v.size - 1))).length
          = v.slots.length := by simp
      have hs2 : (writeSlots (v.slots.set v.size (slotAt v.slots (v.size - 1)))
          (p + 1) (readRange v.slots p (v.size - 1 - p))).length
          = v.slots.length := by rw [length_writeSlots, hs1]
      rcases Nat.lt_trichotomy i p with hlt | heq | hgt
      · rw [slotAt_set_ne _ p i _ (by omega),
          slotAt_writeSlots_lt _ _ _ _ (by omega),
          slotAt_set_ne _ v.size i _ (by omega), if_pos hlt]
      · subst heq
        rw [slotAt_set_self _ i _ (by omega), if_neg (by omega), if_pos rfl]
      · rw [slotAt_set_ne _ p i _ (by omega), if_neg (by omega),
          if_neg (by omega)]
        rcases Nat.lt_or_ge i v.size with hi2 | hi2
        · rw [slotAt_writeSlots_mid _ _ _ _ (by omega) (by omega) (by omega),
            getD_readRange _ _ _ _ (by omega) (by omega)]
          have he : p + (i - (p + 1)) = i - 1 := by omega
          rw [he]
        · have hie : i = v.size := by omega
          subst hie
          rw [slotAt_writeSlots_ge _ _ _ _ (by omega),
            slotAt_set_self _ v.size _ (by omega)]

theorem Erase_ret (v : Vec α) (p : Nat) : (v.Erase p).2 = p := rfl

theorem Erase_size (v : Vec α) (p : Nat) (h0 : 0 < v.size) :
    (v.Erase p).1.size = v.size - 1 := by
  simp only [Vec.Erase, Vec.PopBack]
  rw [if_neg (by omega)]

theorem Erase_slot (v : Vec α) (p i : Nat)
    (hlen : v.size ≤ v.slots.length) (hp : p < v.size) (hi : i < v.size) :
    (v.Erase p).1.slot i =
      if i < p then v.slot i
      else if i < v.size - 1 then v.slot (i + 1) else none := by
  simp only [Vec.Erase, Vec.PopBack]
  rw [if_neg (show ¬ (Vec.mk (writeSlots v.slots p
    (readRange v.slots (p + 1) (v.size - (p + 1)))) v.size).size = 0 by
      simp; omega)]
  simp only [Vec.slot, writeSlots]
  have hrr : (readRange v.slots (p + 1) (v.size - (p + 1))).length
      = v.size - (p + 1) := length_readRange _ _ _ (by omega)
  have hw : (writeSlots v.slots p
      (readRange v.slots (p + 1) (v.size - (p + 1)))).length
      = v.slots.length := length_writeSlots _ _ _
  rcases Nat.lt_or_ge i (v.size - 1) with hi1 | hi1
  · rw [slotAt_set_ne _ (v.size - 1) i _ (by omega)]
    rcases Nat.lt_or_ge i p with hip | hip
    · rw [slotAt_writeSlots_lt _ _ _ _ (by omega), if_pos hip]
    · rw [slotAt_writeSlots_mid _ _ _ _ (by omega) (by omega) (by omega),
        getD_readRange _ _ _ _ (by omega) (by omega),
        if_neg (by omega), if_pos hi1]
      have he : p + 1 + (i - p) = i + 1 := by omega
      rw [he]
  · have hie : i = v.size - 1 := by omega
    subst hie
    rw [slotAt_set_self _ (v.size - 1) _ (by omega), if_neg (by omega),
      if_neg (by omega)]

theorem Capacity_le_EmplaceVal (v : Vec α) (p : Nat) (x : α) :
    v.Capacity ≤ (v.EmplaceVal p x).1.Capacity := by
  unfold Vec.EmplaceVal
  split_ifs with hg h0 hps
  · simp only [Vec.Capacity] at hg ⊢
    simp only [length_writeSlots, List.length_replicate]
    omega
  · simp only [Vec.Capacity] at hg ⊢
    simp only [length_writeSlots, List.length_replicate]
    omega
  · simp [Vec.Capacity, length_writeSlots]
  · simp [Vec.Capacity, length_writeSlots]

/-! ### Claim theorems -/

/-- C1: the claim fails on the code.  With dst = [10] (size 1, capacity 2)
and src = [11, 22] (so S = 1 ≤ M = 2 ≤ C = 2), copy assignment takes the
CopyWithOldCopacity path, whose uninitialized_copy_n writes src's elements
[S, M) to the BASE of dst's buffer (destination data_.GetAddress(), not
data_ + Size()); slot 1 is never constructed, so afterwards dst's size is 2
but dst does not hold src's element 22 at index 1. -/
theorem copyWithOldCopacity_misdirected :
    Vec.copyAssign (⟨[some 10, none], 1⟩ : Vec Nat) ⟨[some 11, some 22], 2⟩
        = ⟨[some 11, none], 2⟩ ∧
      (Vec.copyAssign (⟨[some 10, none], 1⟩ : Vec Nat)
        ⟨[some 11, some 22], 2⟩).slot 1 ≠ some 22 := by
  decide

/-- C2 counterexample: move-assigning a RawMemory with base 200 and
capacity 2 into a distinct one with base 100 and capacity 1 leaves the
source holding (100, 1), not (null, 0): RawMemory's move assignment is
implemented with Swap, which exchanges rather than empties. -/
theorem rawMemory_moveAssign_source_not_emptied :
    ¬ ((RawMemory.moveAssign ⟨some 100, 1⟩ ⟨some 200, 2⟩ false).2
        = (⟨none, 0⟩ : RawMemory)) := by
  decide

/-- C2 (amended): for distinct RawMemory objects, move assignment swaps
the two objects: lhs takes rhs's former base address and capacity, and rhs
takes lhs's former base address and capacity; in particular rhs ends empty
iff lhs was empty before the assignment. -/
theorem rawMemory_moveAssign_swaps :
    ∀ l r : RawMemory,
      (RawMemory.moveAssign l r false).1 = ⟨r.buffer, r.capacity⟩ ∧
      (RawMemory.moveAssign l r false).2 = ⟨l.buffer, l.capacity⟩ ∧
      ((RawMemory.moveAssign l r false).2 = (⟨none, 0⟩ : RawMemory) ↔
        l = (⟨none, 0⟩ : RawMemory)) := by
  intro l r
  cases l
  cases r
  simp [RawMemory.moveAssign, RawMemory.SwapMem]

/-- C4: the claim fails on the code.  Both operands below satisfy the
size/initialized-prefix invariant and the copy assignment returns
normally, yet the result has size 2 while its storage slot 1 is
uninitialized, because CopyWithOldCopacity constructs src's tail elements
at the base of the buffer instead of at offset Size(). -/
theorem invariant_broken_by_copy_assignment :
    Vec.wf (⟨[some 0, none], 1⟩ : Vec Nat) ∧
      Vec.wf (⟨[some 1, some 2], 2⟩ : Vec Nat) ∧
      ¬ Vec.wf (Vec.copyAssign (⟨[some 0, none], 1⟩ : Vec Nat)
        ⟨[some 1, some 2], 2⟩) := by
  decide

/-- C5: none of Reserve, Resize (including shrinking), PopBack, Erase,
Emplace/Insert, PushBack, or copy assignment ever decreases Capacity(). -/
theorem capacity_never_decreases (α : Type) :
    (∀ (v : Vec α) (n : Nat), v.Capacity ≤ (v.Reserve n).Capacity) ∧
    (∀ (v : Vec α) (n : Nat) (z : α), v.Capacity ≤ (v.Resize n z).Capacity) ∧
    (∀ v : Vec α, v.Capacity ≤ v.PopBack.Capacity) ∧
    (∀ (v : Vec α) (p : Nat), v.Capacity ≤ (v.Erase p).1.Capacity) ∧
    (∀ (v : Vec α) (p : Nat) (x : α),
      v.Capacity ≤ (v.EmplaceVal p x).1.Capacity) ∧
    (∀ (v : Vec α) (x : α), v.Capacity ≤ (v.PushBack x).Capacity) ∧
    (∀ d s : Vec α, d.Capacity ≤ (d.copyAssign s).Capacity) := by
  refine ⟨?_, ?_, ?_, ?_, ?_, ?_, ?_⟩
  · intro v n
    rw [Capacity_Reserve]
    omega
  · intro v n z
    unfold Vec.Resize
    split_ifs with h1 h2
    · exact Nat.le_refl _
    · simp [Vec.Capacity, destroyN, length_writeSlots]
    · simp only [Vec.Capacity, length_writeSlots]
      have h := Capacity_Reserve v n
      simp only [Vec.Capacity] at h
      omega
  · intro v
    unfold Vec.PopBack
    split_ifs with h
    · exact Nat.le_refl _
    · simp [Vec.Capacity, length_writeSlots]
  · intro v p
    simp only [Vec.Erase, Vec.PopBack]
    split_ifs with h
    · simp [Vec.Capacity, length_writeSlots]
    · simp [Vec.Capacity, length_writeSlots]
  · intro v p x
    exact Capacity_le_EmplaceVal v p x
  · intro v x
    exact Capacity_le_EmplaceVal v v.size x
  · intro d s
    unfold Vec.copyAssign Vec.CopyWithOldCopacity
    split_ifs with h h2
    · simp only [Vec.Capacity] at h ⊢
      simp only [length_writeSlots, List.length_replicate]
      omega
    · simp [Vec.Capacity, destroyN, length_writeSlots]
    · simp [Vec.Capacity, length_writeSlots]

/-- C9: the debug precondition assertions of Emplace
(cpos >= cbegin() || cpos <= cend()) and of Erase
(cpos >= cbegin() || cpos < cend()) hold for every address q, including
positions outside the valid range, so the assertions never fire and never
reject any position. -/
theorem assert_disjunctions_always_true :
    ∀ b s q : Nat, emplaceAssertCond b s q = true ∧ eraseAssertCond b s q = true := by
  intro b s q
  constructor
  · simp only [emplaceAssertCond, Bool.or_eq_true, decide_eq_true_eq]
    omega
  · simp only [eraseAssertCond, Bool.or_eq_true, decide_eq_true_eq]
    omega

/-- C10: move-assigning a vector object to itself is a no-op: the
this != &rhs check skips the swap, so the whole object heap - in
particular the vector's size, capacity and element values - is unchanged. -/
theorem vector_moveAssign_self_noop (α : Type) :
    ∀ (mem : Nat → Vec α) (v : Nat), vectorMoveAssign mem v v = mem := by
  intro mem v
  simp [vectorMoveAssign]

/-- C3: Emplace with growth is transactional.  If the new element's
constructor throws, or the relocation of any existing element (prefix or
tail relocation) throws, then the exception propagates (threw), the
vector's size, capacity and element values are exactly as before the call
(vec = v), every element object constructed in the new region has been
destroyed (leaked = 0), and the newly allocated region is released. -/
theorem emplaceGrow_transactional (α : Type) :
    ∀ (copyFn : α → Except Unit α) (mk : Except Unit α) (v : Vec α) (p : Nat),
      p ≤ v.size →
      (mk = Except.error () ∨
        relocateE copyFn (readRange v.slots 0 p) = Except.error () ∨
        relocateE copyFn (readRange v.slots p (v.size - p)) = Except.error ()) →
      ((Vec.EmplaceGrow copyFn mk v p).threw = true ∧
        (Vec.EmplaceGrow copyFn mk v p).vec = v ∧
        (Vec.EmplaceGrow copyFn mk v p).leaked = 0 ∧
        (Vec.EmplaceGrow copyFn mk v p).regionReleased = true) := by
  intro copyFn mk v p hp hthrow
  by_cases h0 : v.size = 0
  · cases mk with
    | error e =>
      cases e
      simp [Vec.EmplaceGrow, h0]
    | ok x =>
      exfalso
      have hp0 : p = 0 := by omega
      rcases hthrow with h | h | h
      · exact Except.noConfusion h
      · subst hp0
        simp [readRange, relocateE] at h
      · subst hp0
        rw [h0] at h
        simp [readRange, relocateE] at h
  · cases mk with
    | error e =>
      cases e
      simp [Vec.EmplaceGrow, h0]
    | ok x =>
      cases hrel1 : relocateE copyFn (readRange v.slots 0 p) with
      | error e1 =>
        cases e1
        simp [Vec.EmplaceGrow, h0, hrel1]
      | ok rel1 =>
        cases hrel2 : relocateE copyFn (readRange v.slots p (v.size - p)) with
        | error e2 =>
          cases e2
          simp [Vec.EmplaceGrow, h0, hrel1, hrel2]
        | ok rel2 =>
          exfalso
          rcases hthrow with h | h | h
          · exact Except.noConfusion h
          · rw [hrel1] at h
            exact Except.noConfusion h
          · rw [hrel2] at h
            exact Except.noConfusion h

/-- Witness for C3: a singleton vector whose element's copy constructor
always throws; the tail relocation fails, the exception propagates and the
vector, leak count and region release are as the theorem states. -/
theorem emplaceGrow_transactional_witness :
    1 ≤ Vec.size (⟨[some 3], 1⟩ : Vec Nat) ∧
    ((Vec.EmplaceGrow (fun _ => Except.error ()) (Except.ok 7)
        (⟨[some 3], 1⟩ : Vec Nat) 1).threw = true ∧
      (Vec.EmplaceGrow (fun _ => Except.error ()) (Except.ok 7)
        (⟨[some 3], 1⟩ : Vec Nat) 1).vec = ⟨[some 3], 1⟩ ∧
      (Vec.EmplaceGrow (fun _ => Except.error ()) (Except.ok 7)
        (⟨[some 3], 1⟩ : Vec Nat) 1).leaked = 0 ∧
      (Vec.EmplaceGrow (fun _ => Except.error ()) (Except.ok 7)
        (⟨[some 3], 1⟩ : Vec Nat) 1).regionReleased = true) :=
  ⟨Nat.le_refl 1,
    emplaceGrow_transactional Nat (fun _ => Except.error ()) (Except.ok 7)
      ⟨[some 3], 1⟩ 1 (Nat.le_refl 1) (Or.inr (Or.inl rfl))⟩

/-- C6: when push-style growth occurs (size == Capacity), the new capacity
is 1 if the old capacity is 0 and twice the old capacity otherwise;
Reserve(n) with n greater than the current capacity allocates exactly n
slots; and repeated PushBack from empty produces capacities
0,1,2,4,4,8,8,8,8,16 after 0..9 pushes (the 0,1,2,4,8,16 doubling
pattern). -/
theorem growth_capacity_rule (α : Type) :
    (∀ (v : Vec α) (p : Nat) (x : α), v.size = v.Capacity →
      (v.EmplaceVal p x).1.Capacity
        = if v.Capacity = 0 then 1 else 2 * v.Capacity) ∧
    (∀ (v : Vec α) (n : Nat), v.Capacity < n → (v.Reserve n).Capacity = n) ∧
    (List.range 10).map (fun n => (iteratedPush n).Capacity)
      = [0, 1, 2, 4, 4, 8, 8, 8, 8, 16] := by
  refine ⟨?_, ?_, ?_⟩
  · intro v p x hg
    unfold Vec.EmplaceVal
    rw [if_pos hg]
    by_cases h0 : v.size = 0
    · rw [if_pos h0]
      have hc0 : v.Capacity = 0 := by omega
      rw [if_pos hc0]
      simp [Vec.Capacity, length_writeSlots]
    · rw [if_neg h0]
      have hcne : ¬ v.Capacity = 0 := by omega
      rw [if_neg hcne]
      simp [Vec.Capacity, length_writeSlots]
  · intro v n h
    rw [Capacity_Reserve]
    omega
  · decide

/-- Witness for C6: growing a full one-element vector doubles the capacity
to 2, and Reserve 3 on an empty vector allocates exactly 3 slots. -/
theorem growth_capacity_rule_witness :
    Vec.size (⟨[some 5], 1⟩ : Vec Nat) = Vec.Capacity ⟨[some 5], 1⟩ ∧
    (((⟨[some 5], 1⟩ : Vec Nat).EmplaceVal 0 9).1.Capacity
      = if Vec.Capacity (⟨[some 5], 1⟩ : Vec Nat) = 0 then 1
        else 2 * Vec.Capacity (⟨[some 5], 1⟩ : Vec Nat)) ∧
    Vec.Capacity (⟨[], 0⟩ : Vec Nat) < 3 ∧
    ((⟨[], 0⟩ : Vec Nat).Reserve 3).Capacity = 3 :=
  ⟨rfl, (growth_capacity_rule Nat).1 ⟨[some 5], 1⟩ 0 9 rfl, by decide,
    (growth_capacity_rule Nat).2.1 ⟨[], 0⟩ 3 (by decide)⟩

/-- C7: for p in [0, size], Emplace/Insert at p returns the offset p, the
element at p equals the value constructed from the arguments (for an
aliasing argument s[i], the original element value), elements before p are
unchanged, elements formerly at [p, size) are shifted one to the right,
and the size grows by one. -/
theorem emplace_insert_correct (α : Type) [Inhabited α] :
    ∀ (v : Vec α) (p : Nat) (a : Arg α),
      v.size ≤ v.slots.length → p ≤ v.size → a.ok v = true →
      ((v.Emplace p a).2 = p ∧
        (v.Emplace p a).1.size = v.size + 1 ∧
        (v.Emplace p a).1.slot p = some (v.argValue a) ∧
        (∀ i, i < p → (v.Emplace p a).1.slot i = v.slot i) ∧
        (∀ i, p < i → i ≤ v.size → (v.Emplace p a).1.slot i = v.slot (i - 1))) := by
  intro v p a hlen hp _hok
  unfold Vec.Emplace
  refine ⟨EmplaceVal_ret v p _ hp, EmplaceVal_size v p _, ?_, ?_, ?_⟩
  · rw [EmplaceVal_slot v p _ hlen hp p hp, if_neg (by omega), if_pos rfl]
  · intro i hi
    rw [EmplaceVal_slot v p _ hlen hp i (by omega), if_pos hi]
  · intro i h1 h2
    rw [EmplaceVal_slot v p _ hlen hp i h2, if_neg (by omega),
      if_neg (by omega)]

/-- Witness for C7: inserting s[1] of s = [1, 2] (capacity 3) at position
0 - the aliasing case - in particular yields element 2 at position 0. -/
theorem emplace_insert_correct_witness :
    Vec.size (⟨[some 1, some 2, none], 2⟩ : Vec Nat)
        ≤ (⟨[some 1, some 2, none], 2⟩ : Vec Nat).slots.length ∧
    0 ≤ Vec.size (⟨[some 1, some 2, none], 2⟩ : Vec Nat) ∧
    (Arg.ref 1).ok (⟨[some 1, some 2, none], 2⟩ : Vec Nat) = true ∧
    (((⟨[some 1, some 2, none], 2⟩ : Vec Nat).Emplace 0 (Arg.ref 1)).2 = 0 ∧
      ((⟨[some 1, some 2, none], 2⟩ : Vec Nat).Emplace 0 (Arg.ref 1)).1.size
        = Vec.size (⟨[some 1, some 2, none], 2⟩ : Vec Nat) + 1 ∧
      ((⟨[some 1, some 2, none], 2⟩ : Vec Nat).Emplace 0 (Arg.ref 1)).1.slot 0
        = some ((⟨[some 1, some 2, none], 2⟩ : Vec Nat).argValue (Arg.ref 1)) ∧
      (∀ i, i < 0 →
        ((⟨[some 1, some 2, none], 2⟩ : Vec Nat).Emplace 0 (Arg.ref 1)).1.slot i
          = (⟨[some 1, some 2, none], 2⟩ : Vec Nat).slot i) ∧
      (∀ i, 0 < i → i ≤ Vec.size (⟨[some 1, some 2, none], 2⟩ : Vec Nat) →
        ((⟨[some 1, some 2, none], 2⟩ : Vec Nat).Emplace 0 (Arg.ref 1)).1.slot i
          = (⟨[some 1, some 2, none], 2⟩ : Vec Nat).slot (i - 1))) :=
  ⟨by decide, by decide, by decide,
    emplace_insert_correct Nat ⟨[some 1, some 2, none], 2⟩ 0 (Arg.ref 1)
      (by decide) (by decide) (by decide)⟩

/-- C8: for a non-empty vector and p < size, Erase(p) returns the offset
p, decrements the size by one, leaves elements before p unchanged,
move-assigns the elements of [p+1, size) one slot left so that the element
formerly at p+1 is now at p, and destroys the element at slot size-1. -/
theorem erase_correct (α : Type) :
    ∀ (v : Vec α) (p : Nat),
      v.size ≤ v.slots.length → 0 < v.size → p < v.size →
      ((v.Erase p).2 = p ∧
        (v.Erase p).1.size = v.size - 1 ∧
        (∀ i, i < p → (v.Erase p).1.slot i = v.slot i) ∧
        (∀ i, p ≤ i → i < v.size - 1 → (v.Erase p).1.slot i = v.slot (i + 1)) ∧
        (v.Erase p).1.slot (v.size - 1) = none) := by
  intro v p hlen h0 hp
  refine ⟨Erase_ret v p, Erase_size v p h0, ?_, ?_, ?_⟩
  · intro i hi
    rw [Erase_slot v p i hlen hp (by omega), if_pos hi]
  · intro i h1 h2
    rw [Erase_slot v p i hlen hp (by omega), if_neg (by omega), if_pos h2]
  · rw [Erase_slot v p (v.size - 1) hlen hp (by omega), if_neg (by omega),
      if_neg (by omega)]

/-- Witness for C8: erasing position 1 of [1, 2, 3]; in particular the
element formerly at position 2 (value 3) is now at position 1 and the last
slot is destroyed. -/
theorem erase_correct_witness :
    Vec.size (⟨[some 1, some 2, some 3], 3⟩ : Vec Nat)
        ≤ (⟨[some 1, some 2, some 3], 3⟩ : Vec Nat).slots.length ∧
    0 < Vec.size (⟨[some 1, some 2, some 3], 3⟩ : Vec Nat) ∧
    1 < Vec.size (⟨[some 1, some 2, some 3], 3⟩ : Vec Nat) ∧
    (((⟨[some 1, some 2, some 3], 3⟩ : Vec Nat).Erase 1).2 = 1 ∧
      ((⟨[some 1, some 2, some 3], 3⟩ : Vec Nat).Erase 1).1.size
        = Vec.size (⟨[some 1, some 2, some 3], 3⟩ : Vec Nat) - 1 ∧
      (∀ i, i < 1 →
        ((⟨[some 1, some 2, some 3], 3⟩ : Vec Nat).Erase 1).1.slot i
          = (⟨[some 1, some 2, some 3], 3⟩ : Vec Nat).slot i) ∧
      (∀ i, 1 ≤ i → i < Vec.size (⟨[some 1, some 2, some 3], 3⟩ : Vec Nat) - 1 →
        ((⟨[some 1, some 2, some 3], 3⟩ : Vec Nat).Erase 1).1.slot i
          = (⟨[some 1, some 2, some 3], 3⟩ : Vec Nat).slot (i + 1)) ∧
      ((⟨[some 1, some 2, some 3], 3⟩ : Vec Nat).Erase 1).1.slot
        (Vec.size (⟨[some 1, some 2, some 3], 3⟩ : Vec Nat) - 1) = none) :=
  ⟨by decide, by decide, by decide,
    erase_correct Nat ⟨[some 1, some 2, some 3], 3⟩ 1
      (by decide) (by decide) (by decide)⟩

end AdvVec
